import Mathlib

/-!
Shallow embedding of the terminal-launcher engine:

* `ConfigParser.parseCustomFormat` (src/configParser.ts) — the line-oriented
  fallback grammar producing a `TerminalLauncherConfig`;
* `TerminalManager` (the unnamed orchestrator source file) —
  `launchTerminals`, `launchTerminalGroup`, `createTerminal`,
  `executeTerminalCommands`, `checkForDuplicateTerminals`,
  `generateUniqueTerminalName`.

TypeScript optional fields become `Option`; JavaScript truthiness on strings
(`""` is falsy) is modelled explicitly by `truthy`.  The host session list
(`vscode.window.terminals`) is a `List String` of live session names threaded
through the orchestrator; a terminal created by `createTerminal` joins that
list at once, exactly as the VS Code host adds it to `window.terminals`.
Timer-based dispatch becomes an explicit schedule of `(offset, text)` pairs.
-/

/-! ### Character-level string helpers

The built-in `String` operations (`splitOn`, `trim`, `startsWith`, …) do not
reduce inside the kernel, so the string manipulation the sources perform is
embedded structurally on `List Char` and lifted back with `String.mk`. -/

/-- Split a character list at every occurrence of the separator, keeping
empty pieces, like JavaScript `String.prototype.split` with a one-character
separator. -/
def chSplit (sep : Char) : List Char → List (List Char)
  | [] => [[]]
  | x :: xs =>
    match chSplit sep xs with
    | [] => [[]]
    | piece :: rest =>
      if x = sep then [] :: piece :: rest else (x :: piece) :: rest

/-- Split a string at every occurrence of a separator character. -/
def strSplit (sep : Char) (s : String) : List String :=
  (chSplit sep s.data).map String.mk

/-- Trim leading and trailing whitespace, like JavaScript
`String.prototype.trim`. -/
def strTrim (s : String) : String :=
  String.mk (((s.data.dropWhile Char.isWhitespace).reverse.dropWhile
    Char.isWhitespace).reverse)

/-- Whether the string starts with the given character. -/
def strStartsWithChar (c : Char) (s : String) : Bool :=
  match s.data with
  | x :: _ => x = c
  | [] => false

/-- Whether the string ends with the given character. -/
def strEndsWithChar (c : Char) (s : String) : Bool :=
  match s.data.getLast? with
  | some x => x = c
  | none => false

/-- Whether the string contains the given character. -/
def strContainsChar (c : Char) (s : String) : Bool :=
  s.data.contains c

/-- Join a list of strings with a separator string, like
`Array.prototype.join`. -/
def strJoin (sep : String) : List String → String
  | [] => ""
  | [s] => s
  | s :: rest => s ++ sep ++ strJoin sep rest

/-- JavaScript string truthiness on an optional field: a value is truthy
when it is present and non-empty. -/
def truthy : Option String → Bool
  | some s => s ≠ ""
  | none => false

/-- JavaScript `a || b` on optional strings: the first operand when truthy,
the second otherwise. -/
def jsOr (a b : Option String) : Option String :=
  if truthy a then a else b

/-- Modelled from Node `path.isAbsolute` (posix): a path is absolute when it
starts with a slash. -/
def pathIsAbsolute (p : String) : Bool :=
  strStartsWithChar '/' p

/-- One step of posix path normalization: `..` pops the previous segment when
possible, every other segment is appended.  `.` and empty segments have
already been dropped by the caller. -/
def normStep (isAbs : Bool) (acc : List String) (seg : String) : List String :=
  if seg = ".." then
    match acc.getLast? with
    | some last => if last = ".." then acc ++ [seg] else acc.dropLast
    | none => if isAbs then acc else acc ++ [seg]
  else acc ++ [seg]

/-- Modelled from Node `path.join` (posix): concatenate with a slash and
normalize, dropping empty and `.` segments and resolving `..`. -/
def pathJoin (a b : String) : String :=
  let isAbs := strStartsWithChar '/' a
  let segs := (strSplit '/' (a ++ "/" ++ b)).filter (fun s => s ≠ "" ∧ s ≠ ".")
  let norm := segs.foldl (normStep isAbs) []
  if norm = [] then (if isAbs then "/" else ".")
  else (if isAbs then "/" else "") ++ strJoin "/" norm

/-- Modelled from Node `path.basename` (posix): the last non-empty component
of the path. -/
def pathBasename (p : String) : String :=
  match ((strSplit '/' p).filter (fun s => s ≠ "")).getLast? with
  | some s => s
  | none => ""

/-- `TerminalConfig` from src/types.ts. -/
structure TerminalConfig where
  name : String
  cwd : Option String := none
  command : Option String := none
  commands : Option (List String) := none
  script : Option String := none
  commandDelay : Option Nat := none
  color : Option String := none
  icon : Option String := none
  shellPath : Option String := none
  shellArgs : Option (List String) := none
  env : Option (List (String × String)) := none
  deriving DecidableEq, Repr

/-- `TerminalGroupConfig` from src/types.ts. -/
structure TerminalGroupConfig where
  name : Option String := none
  terminals : List TerminalConfig
  deriving DecidableEq, Repr

/-- `TerminalLauncherConfig` from src/types.ts. -/
structure TerminalLauncherConfig where
  version : Option String := none
  groups : Option (List TerminalGroupConfig) := none
  terminals : Option (List TerminalConfig) := none
  deriving DecidableEq, Repr

/-- JavaScript truthiness of the guard `config.commands && config.commands.length > 0`. -/
def commandsNonEmpty : Option (List String) → Bool
  | some l => l.length > 0
  | none => false

/-- JavaScript `config.commandDelay || 100`: the delay is 100 when the field
is absent or zero (both falsy), else the field value. -/
def effectiveDelay : Option Nat → Nat
  | some d => if d ≠ 0 then d else 100
  | none => 100

/-- `TerminalManager.executeTerminalCommands`: the schedule of text sent to a
session, as `(offset in ms after session readiness, text)` pairs, mirroring
the `script > commands > command` if-chain of the source. -/
def executeTerminalCommands (config : TerminalConfig) (basePath : String) :
    List (Nat × String) :=
  if truthy config.script then
    let s := config.script.getD ""
    let scriptPath := if pathIsAbsolute s then s else pathJoin basePath s
    [(0, scriptPath)]
  else if commandsNonEmpty config.commands then
    let delay := effectiveDelay config.commandDelay
    (config.commands.getD []).mapIdx (fun index cmd => (index * delay, cmd))
  else if truthy config.command then
    [(0, config.command.getD "")]
  else []

example : executeTerminalCommands { name := "t", command := some "echo hi" } "" =
    [(0, "echo hi")] := by decide

example : executeTerminalCommands
    { name := "t", script := some "run.sh", commands := some ["a"],
      command := some "b" } "/base" = [(0, "/base/run.sh")] := by decide

example : executeTerminalCommands
    { name := "t", commands := some ["a", "b"], commandDelay := some 0 } "" =
    [(0, "a"), (100, "b")] := by decide

example : pathJoin "/root" "./x" = "/root/x" := by decide

example : pathBasename "/home/me/proj" = "proj" := by decide

/-! ### ConfigParser.parseCustomFormat (src/configParser.ts) -/

/-- A line is kept by the initial filter when its trimmed form is non-empty
and does not start with `#` (src/configParser.ts line 123). -/
def keptLine (line : String) : Bool :=
  strTrim line ≠ "" ∧ ¬ strStartsWithChar '#' (strTrim line)

/-- A trimmed line opens a new record when it starts with `[` and ends with
`]` (src/configParser.ts line 131). -/
def isHeaderLine (line : String) : Bool :=
  strStartsWithChar '[' (strTrim line) ∧ strEndsWithChar ']' (strTrim line)

/-- The record name carried by a header line: the trimmed line with the
surrounding bracket characters removed (`trimmed.slice(1, -1)`). -/
def headerName (line : String) : String :=
  String.mk ((strTrim line).data.drop 1).dropLast

/-- One `key = value` line applied to an open record: split on the first
`=`, trim the key, re-join and trim the value, and set the recognized field
(src/configParser.ts lines 137-160).  Unrecognized keys change nothing. -/
def applyKV (t : TerminalConfig) (trimmed : String) : TerminalConfig :=
  match strSplit '=' trimmed with
  | [] => t
  | key :: valueParts =>
    let value := strTrim (strJoin "=" valueParts)
    if strTrim key = "cwd" then { t with cwd := some value }
    else if strTrim key = "command" then { t with command := some value }
    else if strTrim key = "commands" then
      { t with commands := some ((strSplit ';' value).map strTrim) }
    else if strTrim key = "script" then { t with script := some value }
    else if strTrim key = "color" then { t with color := some value }
    else if strTrim key = "icon" then { t with icon := some value }
    else t

/-- One kept line applied to an open record: a `=` line updates the record,
anything else is skipped (src/configParser.ts lines 136-161). -/
def applyLine (t : TerminalConfig) (line : String) : TerminalConfig :=
  if strContainsChar '=' (strTrim line) then applyKV t (strTrim line) else t

/-- The parse loop of `parseCustomFormat`: walks the kept lines carrying the
optional open record and the records flushed so far, flushing the open
record at each header line and at end of input. -/
def parseLoop : Option TerminalConfig → List TerminalConfig → List String →
    List TerminalConfig
  | cur, acc, [] =>
    match cur with
    | some t => acc ++ [t]
    | none => acc
  | cur, acc, line :: rest =>
    let trimmed := strTrim line
    if isHeaderLine line then
      let acc' := match cur with
        | some t => acc ++ [t]
        | none => acc
      parseLoop (some { name := headerName line }) acc' rest
    else
      match cur with
      | some t =>
        if strContainsChar '=' trimmed then
          parseLoop (some (applyKV t trimmed)) acc rest
        else parseLoop cur acc rest
      | none => parseLoop none acc rest

/-- The kept lines of the input: split on newline, drop blank and `#` lines. -/
def filteredLines (content : String) : List String :=
  (strSplit '\n' content).filter keptLine

/-- `ConfigParser.parseCustomFormat`: the custom line-oriented grammar. -/
def parseCustomFormat (content : String) : TerminalLauncherConfig :=
  { terminals := some (parseLoop none [] (filteredLines content)) }

example : parseCustomFormat "# c\n[A]\ncwd = ./x\n\n[B]\ncommand = go\n" =
    { terminals := some [{ name := "A", cwd := some "./x" },
                         { name := "B", command := some "go" }] } := by decide

example : applyKV { name := "t" } "commands = a ; b;c " =
    { name := "t", commands := some ["a", "b", "c"] } := by decide

/-! ### TerminalManager (the orchestrator source file)

The Host Session Provider is modelled by a `List String` of live session
names in creation order; `vscode.window.createTerminal` appends to it and
`Terminal.dispose` removes the named entry.  Observable behavior is recorded
as a list of events. -/

/-- An observable action of the orchestrator against the host.  `send`
carries the millisecond offset from session creation at which the text is
injected.  `shown` records a `Terminal.show(preserveFocus)` call: per the VS
Code API the terminal is revealed in the panel, and it takes keyboard focus
unless `preserveFocus` is true. -/
inductive TEvent where
  | created (name : String) (cwd : Option String)
  | shown (name : String) (preserveFocus : Bool)
  | send (name : String) (offset : Nat) (text : String)
  | disposed (name : String)
  | errorShown (msg : String)
  deriving DecidableEq, Repr

/-- `TerminalManager.findExistingTerminal`: whether a live session carries
this exact name. -/
def findExistingTerminal (live : List String) (name : String) : Bool :=
  live.contains name

/-- The candidate name tried by the rename loop for a given counter value:
`` `${baseName} (${counter})` ``. -/
def numberedName (baseName : String) (counter : Nat) : String :=
  baseName ++ " (" ++ Nat.repr counter ++ ")"

/-- The while-loop of `TerminalManager.generateUniqueTerminalName`, walking
counters upward from `counter` while the candidate name is live.  The fuel
bounds the walk; `live.length + 1` candidates always include a free one. -/
def generateUniqueAux (live : List String) (baseName : String) :
    Nat → Nat → String
  | 0, counter => numberedName baseName counter
  | fuel + 1, counter =>
    let uniqueName := numberedName baseName counter
    if findExistingTerminal live uniqueName then
      generateUniqueAux live baseName fuel (counter + 1)
    else uniqueName

/-- `TerminalManager.generateUniqueTerminalName`: append `" (N)"` for the
first counter N = 2, 3, … whose candidate name is not live. -/
def generateUniqueTerminalName (live : List String) (baseName : String) :
    String :=
  generateUniqueAux live baseName (live.length + 1) 2

/-- The effective session name of a request: prefixed with
`[basename(projectBasePath)] ` when a project base path is supplied
(truthy), else the configured name. -/
def effectiveName (projectBasePath : Option String) (name : String) : String :=
  match projectBasePath with
  | some p => if p ≠ "" then "[" ++ pathBasename p ++ "] " ++ name else name
  | none => name

/-- Lines 63-67 of `TerminalManager.createTerminal`: a truthy `cwd` is used
verbatim when absolute and joined to the base path when relative; a falsy
`cwd` resolves to the base path itself. -/
def resolveCwd (basePath cwd : Option String) : Option String :=
  if truthy cwd then
    (if pathIsAbsolute (cwd.getD "") then cwd
     else some (pathJoin (basePath.getD "") (cwd.getD "")))
  else basePath

/-- `TerminalManager.createTerminal`.  Returns the updated live-session
list, the emitted events, and the created session name (or `none` when the
request was skipped or failed).  `wsRoot` models
`vscode.workspace.workspaceFolders?.[0]?.uri.fsPath`. -/
def createTerminal (config : TerminalConfig) (projectBasePath wsRoot : Option String)
    (duplicateAction : String) (live : List String) :
    List String × List TEvent × Option String :=
  let basePath := jsOr projectBasePath wsRoot
  if ¬ truthy basePath ∧ truthy config.cwd ∧
      ¬ pathIsAbsolute (config.cwd.getD "") then
    (live, [TEvent.errorShown ("Cannot resolve relative path without base path: "
      ++ config.cwd.getD "")], none)
  else
    let cwd : Option String := resolveCwd basePath config.cwd
    let terminalName := effectiveName projectBasePath config.name
    let existing := findExistingTerminal live terminalName
    let step : List String × List TEvent × Option String :=
      if existing then
        if duplicateAction = "replace" then
          (live.erase terminalName, [TEvent.disposed terminalName], some terminalName)
        else if duplicateAction = "skip" then
          (live, [], none)
        else if duplicateAction = "rename" then
          (live, [], some (generateUniqueTerminalName live terminalName))
        else (live, [], some terminalName)
      else (live, [], some terminalName)
    match step with
    | (live', evs, none) => (live', evs, none)
    | (live', evs, some finalName) =>
      let dispatchBase := match jsOr cwd basePath with
        | some s => if s ≠ "" then s else ""
        | none => ""
      let sends := (executeTerminalCommands config dispatchBase).map
        (fun p => TEvent.send finalName (500 + p.1) p.2)
      (live' ++ [finalName], evs ++ [TEvent.created finalName cwd] ++ sends,
        some finalName)

/-- The creation loop shared by `launchTerminals` (ungrouped branch) and
`launchTerminalGroup`: create each config in order, pushing created
terminals and calling `show(i === 0)` on each. -/
def launchList (projectBasePath wsRoot : Option String) (duplicateAction : String) :
    List TerminalConfig → Nat → List String → List String × List TEvent
  | [], _, live => (live, [])
  | config :: rest, i, live =>
    match createTerminal config projectBasePath wsRoot duplicateAction live with
    | (live1, evs, some n) =>
      let (live2, evs2) := launchList projectBasePath wsRoot duplicateAction rest (i + 1) live1
      (live2, evs ++ [TEvent.shown n (i = 0)] ++ evs2)
    | (live1, evs, none) =>
      let (live2, evs2) := launchList projectBasePath wsRoot duplicateAction rest (i + 1) live1
      (live2, evs ++ evs2)

/-- `TerminalManager.launchTerminalGroup`: an empty group is skipped, any
other group runs the creation loop over its terminals. -/
def launchTerminalGroup (group : TerminalGroupConfig)
    (projectBasePath wsRoot : Option String) (duplicateAction : String)
    (live : List String) : List String × List TEvent :=
  if group.terminals.length = 0 then (live, [])
  else launchList projectBasePath wsRoot duplicateAction group.terminals 0 live

/-- The `for (const group of config.groups)` loop of `launchTerminals`. -/
def launchGroups (projectBasePath wsRoot : Option String) (duplicateAction : String) :
    List TerminalGroupConfig → List String → List String × List TEvent
  | [], live => (live, [])
  | g :: rest, live =>
    let (live1, evs1) := launchTerminalGroup g projectBasePath wsRoot duplicateAction live
    let (live2, evs2) := launchGroups projectBasePath wsRoot duplicateAction rest live1
    (live2, evs1 ++ evs2)

/-- JavaScript truthiness of `config.groups && config.groups.length > 0`. -/
def groupsNonEmpty : Option (List TerminalGroupConfig) → Bool
  | some gs => gs.length > 0
  | none => false

/-- JavaScript truthiness of `config.terminals && config.terminals.length > 0`. -/
def terminalsNonEmpty : Option (List TerminalConfig) → Bool
  | some ts => ts.length > 0
  | none => false

/-- The effective names of every request in the batch, collected exactly as
`checkForDuplicateTerminals` does (groups branch first, else ungrouped). -/
def batchTerminalNames (config : TerminalLauncherConfig)
    (projectBasePath : Option String) : List String :=
  if groupsNonEmpty config.groups then
    ((config.groups.getD []).map
      (fun g => g.terminals.map (fun t => effectiveName projectBasePath t.name))).flatten
  else if terminalsNonEmpty config.terminals then
    (config.terminals.getD []).map (fun t => effectiveName projectBasePath t.name)
  else []

/-- The batch names that collide with a live session. -/
def duplicateNames (config : TerminalLauncherConfig)
    (projectBasePath : Option String) (live : List String) : List String :=
  (batchTerminalNames config projectBasePath).filter
    (fun n => findExistingTerminal live n)

/-- `TerminalManager.checkForDuplicateTerminals`: with no collision the
implicit policy is `proceed`; otherwise the interactive prompt answer is
used, and a dismissed prompt (`action?.value || 'cancel'`) collapses to
`cancel`. -/
def checkForDuplicateTerminals (config : TerminalLauncherConfig)
    (projectBasePath : Option String) (live : List String)
    (answer : Option String) : String :=
  if (duplicateNames config projectBasePath live).length > 0 then
    match answer with
    | some v => if v ≠ "" then v else "cancel"
    | none => "cancel"
  else "proceed"

/-- The body of `launchTerminals` after the cancel check: the groups branch
when `config.groups` is non-empty, else the ungrouped branch. -/
def launchTerminalsBody (config : TerminalLauncherConfig)
    (projectBasePath wsRoot : Option String) (duplicateAction : String)
    (live : List String) : List String × List TEvent :=
  if groupsNonEmpty config.groups then
    launchGroups projectBasePath wsRoot duplicateAction (config.groups.getD []) live
  else if terminalsNonEmpty config.terminals then
    launchList projectBasePath wsRoot duplicateAction (config.terminals.getD []) 0 live
  else (live, [])

/-- `TerminalManager.launchTerminals`: resolve the batch-wide duplicate
policy, abort on `cancel`, otherwise run the launch body.  `answer` models
the interactive prompt result (`none` = dismissed without selection). -/
def launchTerminals (config : TerminalLauncherConfig)
    (projectBasePath wsRoot : Option String) (answer : Option String)
    (live : List String) : List String × List TEvent :=
  let duplicateAction := checkForDuplicateTerminals config projectBasePath live answer
  if duplicateAction = "cancel" then (live, [])
  else launchTerminalsBody config projectBasePath wsRoot duplicateAction live

/-- The names of sessions created in an event trace, in order. -/
def createdNames (evs : List TEvent) : List String :=
  evs.filterMap (fun e => match e with
    | TEvent.created n _ => some n
    | _ => none)

/-- The `show` calls of an event trace, as `(name, preserveFocus)` pairs. -/
def shownCalls (evs : List TEvent) : List (String × Bool) :=
  evs.filterMap (fun e => match e with
    | TEvent.shown n pf => some (n, pf)
    | _ => none)

/-- The session left revealed in the terminal panel after the trace: the
last one on which `show` was called (every `show` reveals its terminal). -/
def revealedLast (evs : List TEvent) : Option String :=
  evs.foldl (fun acc e => match e with
    | TEvent.shown n _ => some n
    | _ => acc) none

/-- The session holding keyboard focus after the trace: the last one shown
with `preserveFocus = false`. -/
def focusedLast (evs : List TEvent) : Option String :=
  evs.foldl (fun acc e => match e with
    | TEvent.shown n pf => if pf then acc else some n
    | _ => acc) none

example : generateUniqueTerminalName ["X", "X (2)"] "X" = "X (3)" := by decide

example :
    launchTerminals { terminals := some [{ name := "A", command := some "echo hi" }] }
      none (some "/w") none [] =
    (["A"], [TEvent.created "A" (some "/w"), TEvent.send "A" 500 "echo hi",
             TEvent.shown "A" true]) := by decide

/-! ### Segment view of the custom grammar

Written from the spec's description of the custom grammar: the kept lines
decompose into one segment per `[X]` header (the header and the lines up to
the next header), and each record is built from exactly its own segment.
`parseCustomFormat` is proved equal to this view below. -/

/-- The body lines before the next header, and the remaining lines from that
header on. -/
def splitSeg : List String → List String × List String
  | [] => ([], [])
  | l :: rest =>
    if isHeaderLine l then ([], l :: rest)
    else
      let p := splitSeg rest
      (l :: p.1, p.2)

theorem splitSeg_snd_length_le : ∀ ls : List String,
    (splitSeg ls).2.length ≤ ls.length := by
  intro ls
  induction ls with
  | nil => simp [splitSeg]
  | cons l rest ih =>
    by_cases h : isHeaderLine l
    · simp [splitSeg, h]
    · simp only [splitSeg, h]
      simp only [Bool.false_eq_true, if_false]
      exact Nat.le_succ_of_le ih

/-- Modelled from the spec: each `[X]` header line opens one segment made of
the header's name and the non-header lines that follow it; lines before the
first header belong to no segment. -/
def specSegments : List String → List (String × List String)
  | [] => []
  | l :: rest =>
    if isHeaderLine l then
      (headerName l, (splitSeg rest).1) :: specSegments (splitSeg rest).2
    else specSegments rest
  termination_by ls => ls.length
  decreasing_by
    all_goals simp only [List.length_cons]
    · exact Nat.lt_succ_of_le (splitSeg_snd_length_le _)
    · exact Nat.lt_succ_self _

/-- The record a segment denotes: the header's name, with each of the
segment's lines applied in order. -/
def buildRecord (name : String) (ls : List String) : TerminalConfig :=
  ls.foldl applyLine { name := name }

theorem specSegments_nil : specSegments [] = [] := by
  rw [specSegments]

theorem specSegments_cons_header {l : String} {rest : List String}
    (h : isHeaderLine l = true) :
    specSegments (l :: rest) =
      (headerName l, (splitSeg rest).1) :: specSegments (splitSeg rest).2 := by
  rw [specSegments]
  simp [h]

theorem specSegments_cons_other {l : String} {rest : List String}
    (h : ¬ isHeaderLine l = true) :
    specSegments (l :: rest) = specSegments rest := by
  rw [specSegments]
  simp [h]

theorem parseLoop_some_eq (ls : List String) : ∀ (acc : List TerminalConfig)
    (t : TerminalConfig),
    parseLoop (some t) acc ls =
      acc ++ [(splitSeg ls).1.foldl applyLine t] ++
        ((specSegments (splitSeg ls).2).map (fun p => buildRecord p.1 p.2)) := by
  induction ls with
  | nil =>
    intro acc t
    simp [parseLoop, splitSeg, specSegments_nil]
  | cons l rest ih =>
    intro acc t
    by_cases h : isHeaderLine l
    · simp only [parseLoop, h, if_pos]
      rw [ih]
      simp only [splitSeg, h, if_pos, List.foldl_nil,
        specSegments_cons_header h, List.map_cons]
      simp [buildRecord, List.append_assoc]
    · by_cases hc : strContainsChar '=' (strTrim l)
      · simp only [parseLoop, h, Bool.false_eq_true, if_false, hc, if_pos]
        rw [ih]
        simp only [splitSeg, h, Bool.false_eq_true, if_false, List.foldl_cons,
          applyLine, hc, if_pos]
      · simp only [parseLoop, h, Bool.false_eq_true, if_false, hc, if_false]
        rw [ih]
        simp only [splitSeg, h, Bool.false_eq_true, if_false, List.foldl_cons,
          applyLine, hc]

theorem parseLoop_none_eq (ls : List String) : ∀ acc : List TerminalConfig,
    parseLoop none acc ls =
      acc ++ ((specSegments ls).map (fun p => buildRecord p.1 p.2)) := by
  induction ls with
  | nil =>
    intro acc
    simp [parseLoop, specSegments_nil]
  | cons l rest ih =>
    intro acc
    by_cases h : isHeaderLine l
    · simp only [parseLoop, h, if_pos]
      rw [parseLoop_some_eq]
      simp [specSegments_cons_header h, buildRecord, List.append_assoc]
    · simp only [parseLoop, h, Bool.false_eq_true, if_false]
      rw [ih]
      simp [specSegments_cons_other h]

/-! ### Decimal names used by the rename policy

`numberedName base n` is injective in `n`, which gives the pigeonhole bound
the rename loop needs: among `live.length + 1` candidate names at least one
is not live. -/

/-- Decode one decimal digit character. -/
def decodeDigit (c : Char) : Nat := c.toNat - '0'.toNat

/-- Decode a digit list most-significant first, starting from `a`. -/
def decodeFrom (a : Nat) (cs : List Char) : Nat :=
  cs.foldl (fun acc c => acc * 10 + decodeDigit c) a

theorem decodeFrom_eq (cs : List Char) : ∀ a : Nat,
    decodeFrom a cs = a * 10 ^ cs.length + decodeFrom 0 cs := by
  induction cs with
  | nil => intro a; simp [decodeFrom]
  | cons c cs ih =>
    intro a
    show decodeFrom (a * 10 + decodeDigit c) cs = _
    rw [ih (a * 10 + decodeDigit c)]
    have h0 : decodeFrom 0 (c :: cs) = decodeFrom (decodeDigit c) cs := by
      simp [decodeFrom]
    rw [h0, ih (decodeDigit c)]
    simp only [List.length_cons, pow_succ]
    ring

theorem decodeDigit_digitChar : ∀ m : Nat, m < 10 →
    decodeDigit (Nat.digitChar m) = m := by decide

theorem decode_toDigitsCore : ∀ (fuel n : Nat) (ds : List Char), n < fuel →
    decodeFrom 0 (Nat.toDigitsCore 10 fuel n ds) =
      n * 10 ^ ds.length + decodeFrom 0 ds := by
  intro fuel
  induction fuel with
  | zero => intro n ds h; omega
  | succ fuel ih =>
    intro n ds h
    show decodeFrom 0
      (if n / 10 = 0 then Nat.digitChar (n % 10) :: ds
       else Nat.toDigitsCore 10 fuel (n / 10) (Nat.digitChar (n % 10) :: ds)) = _
    by_cases hz : n / 10 = 0
    · have hn : n < 10 := by omega
      simp only [hz, if_pos]
      have : decodeFrom 0 (Nat.digitChar (n % 10) :: ds) =
          decodeFrom (decodeDigit (Nat.digitChar (n % 10))) ds := by
        simp [decodeFrom]
      rw [this, decodeDigit_digitChar (n % 10) (Nat.mod_lt n (by omega)),
        decodeFrom_eq]
      have : n % 10 = n := Nat.mod_eq_of_lt hn
      rw [this]
    · simp only [hz, if_false]
      have hlt : n / 10 < fuel := by
        have h1 : 0 < n := by
          rcases Nat.eq_zero_or_pos n with h' | h'
          · exfalso; apply hz; rw [h']
          · exact h'
        have := Nat.div_lt_self h1 (by omega : 1 < 10)
        omega
      rw [ih (n / 10) (Nat.digitChar (n % 10) :: ds) hlt]
      have hd : decodeFrom 0 (Nat.digitChar (n % 10) :: ds) =
          decodeFrom (decodeDigit (Nat.digitChar (n % 10))) ds := by
        simp [decodeFrom]
      rw [hd, decodeDigit_digitChar (n % 10) (Nat.mod_lt n (by omega)),
        decodeFrom_eq]
      have hnm : n / 10 * 10 + n % 10 = n := by omega
      have key : (n / 10 * 10 + n % 10) * 10 ^ ds.length = n * 10 ^ ds.length := by
        rw [hnm]
      simp only [List.length_cons, pow_succ]
      ring_nf
      ring_nf at key
      linarith [key]

theorem decode_toDigits (n : Nat) :
    decodeFrom 0 (Nat.toDigits 10 n) = n := by
  show decodeFrom 0 (Nat.toDigitsCore 10 (n + 1) n []) = n
  rw [decode_toDigitsCore (n + 1) n [] (Nat.lt_succ_self n)]
  simp [decodeFrom]

theorem natRepr_injective : ∀ m n : Nat, Nat.repr m = Nat.repr n → m = n := by
  intro m n h
  have hdata : (Nat.toDigits 10 m) = (Nat.toDigits 10 n) := by
    have := congrArg String.data h
    simpa [Nat.repr, List.asString] using this
  calc m = decodeFrom 0 (Nat.toDigits 10 m) := (decode_toDigits m).symm
    _ = decodeFrom 0 (Nat.toDigits 10 n) := by rw [hdata]
    _ = n := decode_toDigits n

theorem findExistingTerminal_iff (live : List String) (n : String) :
    findExistingTerminal live n = true ↔ n ∈ live := by
  simp only [findExistingTerminal]
  exact List.elem_iff

theorem numberedName_inj (b : String) {m n : Nat}
    (h : numberedName b m = numberedName b n) : m = n := by
  have hd := congrArg String.data h
  simp only [numberedName, String.data_append] at hd
  have h1 := List.append_cancel_right hd
  have h2 := List.append_cancel_left h1
  exact natRepr_injective m n (String.ext h2)

theorem exists_free_candidate (live : List String) (b : String) (start : Nat) :
    ∃ k, k ≤ live.length ∧ numberedName b (start + k) ∉ live := by
  by_contra hall
  push_neg at hall
  have hmaps : ∀ k ∈ Finset.range (live.length + 1),
      numberedName b (start + k) ∈ live.toFinset := by
    intro k hk
    rw [List.mem_toFinset]
    exact hall k (by simpa using Nat.lt_succ_iff.mp (Finset.mem_range.mp hk))
  have hinj : Set.InjOn (fun k => numberedName b (start + k))
      (Finset.range (live.length + 1)) := by
    intro k1 _ k2 _ hk
    have := numberedName_inj b hk
    omega
  have hcard := Finset.card_le_card_of_injOn
    (fun k => numberedName b (start + k)) hmaps hinj
  have hle := List.toFinset_card_le live
  simp only [Finset.card_range] at hcard
  omega

theorem generateUniqueAux_least (live : List String) (b : String) :
    ∀ fuel counter, (∃ k, k < fuel ∧ numberedName b (counter + k) ∉ live) →
    ∃ j, generateUniqueAux live b fuel counter = numberedName b (counter + j) ∧
      numberedName b (counter + j) ∉ live ∧
      ∀ i, i < j → numberedName b (counter + i) ∈ live := by
  intro fuel
  induction fuel with
  | zero =>
    rintro counter ⟨k, hk, _⟩
    omega
  | succ fuel ih =>
    rintro counter ⟨k, hk, hfree⟩
    by_cases hc : findExistingTerminal live (numberedName b counter) = true
    · have hmem : numberedName b counter ∈ live :=
        (findExistingTerminal_iff live _).mp hc
      have hk0 : k ≠ 0 := by
        intro h0
        rw [h0, Nat.add_zero] at hfree
        exact hfree hmem
      obtain ⟨j, hj1, hj2, hj3⟩ := ih (counter + 1)
        ⟨k - 1, by omega, by
          have e : counter + 1 + (k - 1) = counter + k := by omega
          rw [e]
          exact hfree⟩
      refine ⟨j + 1, ?_, ?_, ?_⟩
      · show generateUniqueAux live b (fuel + 1) counter = _
        simp only [generateUniqueAux, hc, if_pos]
        rw [hj1]
        congr 1
        omega
      · have e : counter + (j + 1) = counter + 1 + j := by omega
        rw [e]
        exact hj2
      · intro i hi
        rcases Nat.eq_zero_or_pos i with h0 | h0
        · rw [h0, Nat.add_zero]
          exact hmem
        · have e : counter + i = counter + 1 + (i - 1) := by omega
          rw [e]
          exact hj3 (i - 1) (by omega)
    · refine ⟨0, ?_, ?_, by omega⟩
      · simp only [generateUniqueAux, hc]
        simp [Nat.add_zero]
      · rw [Nat.add_zero]
        intro hmem
        exact hc ((findExistingTerminal_iff live _).mpr hmem)

theorem generateUniqueTerminalName_spec (live : List String) (b : String) :
    ∃ N, 2 ≤ N ∧ generateUniqueTerminalName live b = numberedName b N ∧
      numberedName b N ∉ live ∧
      ∀ m, 2 ≤ m → m < N → numberedName b m ∈ live := by
  obtain ⟨k, hk, hfree⟩ := exists_free_candidate live b 2
  obtain ⟨j, h1, h2, h3⟩ := generateUniqueAux_least live b (live.length + 1) 2
    ⟨k, by omega, hfree⟩
  refine ⟨2 + j, by omega, h1, h2, ?_⟩
  intro m hm2 hmN
  have e : 2 + (m - 2) = m := by omega
  have := h3 (m - 2) (by omega)
  rwa [e] at this

/-! ### Helper lemmas on indexed mapping -/

theorem get?_mapIdx {α β : Type} (l : List α) (f : Nat → α → β) (i : Nat) :
    (l.mapIdx f).get? i = (l.get? i).map (f i) := by
  induction l generalizing f i with
  | nil => simp
  | cons x xs ih =>
    rw [List.mapIdx_cons]
    cases i with
    | zero => simp
    | succ j => simp [ih (fun k a => f (k + 1) a) j]

theorem map_snd_mapIdx {α β : Type} (l : List α) (f : Nat → α → β) :
    (l.mapIdx fun i a => (f i a, a)).map Prod.snd = l := by
  induction l generalizing f with
  | nil => simp
  | cons x xs ih =>
    rw [List.mapIdx_cons]
    simp [ih (fun k a => f (k + 1) a)]

/-! ### Claim C2 — command-source priority -/

/-- C2, counterexample: a `TerminalConfig` on which `script`, `commands` and
`command` are all present (`script = some ""`), yet the dispatched text is
the `commands` entry `"a"`, not the script path (`path.join("/base", "")`
is `"/base"`): the empty string is falsy in JavaScript, so a present-but-
empty `script` does not win the priority. -/
theorem executeTerminalCommands_empty_script_not_script :
    (({ name := "t", script := some "", commands := some ["a"],
        command := some "b" } : TerminalConfig).script).isSome = true ∧
    executeTerminalCommands
      { name := "t", script := some "", commands := some ["a"],
        command := some "b" } "/base" = [(0, "a")] ∧
    pathJoin "/base" "" = "/base" ∧ ("a" : String) ≠ "/base" := by decide

/-- C2, amended: dispatch sends text from exactly one source chosen by the
fixed priority `script > commands > command`, where a source counts as
present only when it is JavaScript-truthy (a non-empty string for `script`
and `command`, a non-empty list for `commands`); when no source is truthy,
nothing is injected. -/
theorem executeTerminalCommands_priority (config : TerminalConfig) (b : String) :
    (truthy config.script = true →
      executeTerminalCommands config b =
        [(0, if pathIsAbsolute (config.script.getD "") then config.script.getD ""
             else pathJoin b (config.script.getD ""))]) ∧
    (truthy config.script = false → commandsNonEmpty config.commands = true →
      (executeTerminalCommands config b).map Prod.snd = config.commands.getD []) ∧
    (truthy config.script = false → commandsNonEmpty config.commands = false →
      truthy config.command = true →
      executeTerminalCommands config b = [(0, config.command.getD "")]) ∧
    (truthy config.script = false → commandsNonEmpty config.commands = false →
      truthy config.command = false →
      executeTerminalCommands config b = []) := by
  refine ⟨?_, ?_, ?_, ?_⟩
  · intro hs
    simp [executeTerminalCommands, hs]
  · intro hs hc
    simp only [executeTerminalCommands, hs, Bool.false_eq_true, if_false, hc,
      if_pos]
    exact map_snd_mapIdx (config.commands.getD [])
      (fun i _ => i * effectiveDelay config.commandDelay)
  · intro hs hc hcmd
    simp [executeTerminalCommands, hs, hc, hcmd]
  · intro hs hc hcmd
    simp [executeTerminalCommands, hs, hc, hcmd]

/-- C2, witness for the amended theorem at a concrete config. -/
theorem executeTerminalCommands_priority_witness :
    executeTerminalCommands
      { name := "t", script := some "run.sh", commands := some ["a"],
        command := some "b" } "/base" = [(0, "/base/run.sh")] := by
  have h := (executeTerminalCommands_priority
    { name := "t", script := some "run.sh", commands := some ["a"],
      command := some "b" } "/base").1 (by decide)
  rw [h]
  decide

/-! ### Claim C6 — commands order and spacing -/

/-- C6, counterexample: with `commandDelay = 0` present, the claim's offset
for the second entry is `1 * commandDelay = 0`, but the code computes the
delay with `config.commandDelay || 100`, for which `0` is falsy, and sends
the second entry at offset `100`. -/
theorem executeTerminalCommands_zero_delay :
    executeTerminalCommands
      { name := "t", commands := some ["a", "b"], commandDelay := some 0 } "" =
      [(0, "a"), (100, "b")] ∧
    1 * (({ name := "t", commands := some ["a", "b"], commandDelay := some 0 } :
      TerminalConfig).commandDelay.getD 100) = 0 ∧
    (100 : Nat) ≠ 0 := by decide

/-- C6, amended: when the effective source is `commands` (no truthy script,
non-empty list), the entries are dispatched in array order and the i-th
entry is sent `i * d` milliseconds after session readiness, where `d` is
`commandDelay` when the field is present and non-zero, and 100 when the
field is absent or zero (`commandDelay || 100`). -/
theorem executeTerminalCommands_commands_schedule (config : TerminalConfig)
    (b : String) (cs : List String) (hs : truthy config.script = false)
    (hc : config.commands = some cs) (hne : 0 < cs.length) :
    (executeTerminalCommands config b).length = cs.length ∧
    ∀ i : Nat, (executeTerminalCommands config b).get? i =
      (cs.get? i).map (fun cmd => (i * effectiveDelay config.commandDelay, cmd)) := by
  have hcne : commandsNonEmpty (some cs) = true := by
    simp [commandsNonEmpty]
    omega
  constructor
  · simp [executeTerminalCommands, hs, hc, hcne]
  · intro i
    simp only [executeTerminalCommands, hs, Bool.false_eq_true, if_false, hc,
      hcne, if_pos, Option.getD_some]
    exact get?_mapIdx cs (fun i cmd => (i * effectiveDelay config.commandDelay, cmd)) i

/-- C6, witness for the amended theorem at a concrete config. -/
theorem executeTerminalCommands_commands_schedule_witness :
    (executeTerminalCommands
        { name := "t", commands := some ["a", "b"], commandDelay := some 50 } "").length = 2 ∧
    (executeTerminalCommands
        { name := "t", commands := some ["a", "b"], commandDelay := some 50 } "").get? 1 =
      some (50, "b") := by
  have h := executeTerminalCommands_commands_schedule
    { name := "t", commands := some ["a", "b"], commandDelay := some 50 } ""
    ["a", "b"] (by decide) rfl (by decide)
  refine ⟨h.1, ?_⟩
  rw [h.2 1]
  decide

/-! ### Claim C10 — empty commands list does not shadow command -/

/-- C10, counterexample: with no script, `commands` present but empty, and
`command` present as the empty string, nothing is dispatched — the claim
predicts the single command is sent.  `config.command` is falsy for `""`,
so presence alone does not trigger injection. -/
theorem executeTerminalCommands_empty_command_nothing :
    (({ name := "t", commands := some [], command := some "" } :
      TerminalConfig).command).isSome = true ∧
    executeTerminalCommands
      { name := "t", commands := some [], command := some "" } "" = [] := by decide

/-- C10, amended: with no script, `commands` present but empty, and
`command` present and non-empty, dispatch sends exactly the single command
at readiness — a present-but-empty `commands` list neither takes priority
nor suppresses injection. -/
theorem executeTerminalCommands_empty_commands_falls_through
    (config : TerminalConfig) (c b : String) (hs : config.script = none)
    (hc : config.commands = some []) (hcmd : config.command = some c)
    (hne : c ≠ "") :
    executeTerminalCommands config b = [(0, c)] := by
  simp [executeTerminalCommands, hs, hc, hcmd, truthy, commandsNonEmpty, hne]

/-- C10, witness for the amended theorem at a concrete config. -/
theorem executeTerminalCommands_empty_commands_falls_through_witness :
    executeTerminalCommands
      { name := "t", commands := some [], command := some "go" } "" =
      [(0, "go")] :=
  executeTerminalCommands_empty_commands_falls_through
    { name := "t", commands := some [], command := some "go" } "go" ""
    rfl rfl rfl (by decide)

/-! ### Claim C8 — each header record is flushed exactly once -/

/-- C8: for every custom-format input, the parser's output terminal
sequence is exactly one record per `[X]` header of the kept lines, in
order; each record carries the header's name and only the `key = value`
lines of its own segment (the lines before the next header or the end of
input), so every opened record is flushed exactly once. -/
theorem parseCustomFormat_segments (content : String) :
    (parseCustomFormat content).terminals =
      some ((specSegments (filteredLines content)).map
        (fun p => buildRecord p.1 p.2)) := by
  show some (parseLoop none [] (filteredLines content)) = _
  rw [parseLoop_none_eq]
  simp

/-! ### Claim C3 — rename picks the smallest free suffix -/

/-- C3: the rename policy derives the new name by appending `" (N)"` for the
smallest N ≥ 2 whose candidate collides with no live session; names created
earlier in the batch are live by then (creation appends to the live list),
so the batch case is covered, as the two concrete conjuncts show: with live
names `{"X", "X (2)"}` a new `"X"` becomes `"X (3)"`, and a rename batch of
two `"X"` requests against live `["X"]` creates `"X (2)"` then `"X (3)"`. -/
theorem generateUniqueTerminalName_least (live : List String) (base : String) :
    (∃ N, 2 ≤ N ∧ generateUniqueTerminalName live base = numberedName base N ∧
      numberedName base N ∉ live ∧
      ∀ m, 2 ≤ m → m < N → numberedName base m ∈ live) ∧
    generateUniqueTerminalName ["X", "X (2)"] "X" = "X (3)" ∧
    createdNames (launchList none none "rename"
      [{ name := "X" }, { name := "X" }] 0 ["X"]).2 = ["X (2)", "X (3)"] :=
  ⟨generateUniqueTerminalName_spec live base, by decide, by decide⟩

/-- C3, witness: the least-suffix property applied at the concrete live set
of the spec's example. -/
theorem generateUniqueTerminalName_least_witness :
    (∃ N, 2 ≤ N ∧
      generateUniqueTerminalName ["X", "X (2)"] "X" = numberedName "X" N ∧
      numberedName "X" N ∉ ["X", "X (2)"] ∧
      ∀ m, 2 ≤ m → m < N → numberedName "X" m ∈ ["X", "X (2)"]) ∧
    generateUniqueTerminalName ["X", "X (2)"] "X" = "X (3)" ∧
    createdNames (launchList none none "rename"
      [{ name := "X" }, { name := "X" }] 0 ["X"]).2 = ["X (2)", "X (3)"] :=
  generateUniqueTerminalName_least ["X", "X (2)"] "X"

/-! ### Claim C4 — working-directory resolution and per-request isolation -/

/-- C4: an absolute `cwd` is used verbatim; a relative one is joined to the
base path, which is `projectBasePath` when truthy and else the first
workspace root; an absent `cwd` resolves to the base path; and when `cwd`
is relative but no base path is resolvable, `createTerminal` fails that
single request with a path-resolution error while the creation loop
continues with the remaining requests on an unchanged live list. -/
theorem resolveCwd_spec (basePath pb ws : Option String) (c : String)
    (cfg : TerminalConfig) (action : String) (live : List String)
    (rest : List TerminalConfig) (i : Nat) :
    (pathIsAbsolute c = true → resolveCwd basePath (some c) = some c) ∧
    (∀ b : String, b ≠ "" → c ≠ "" → pathIsAbsolute c = false →
      resolveCwd (some b) (some c) = some (pathJoin b c)) ∧
    (∀ p : String, p ≠ "" → jsOr (some p) ws = some p) ∧
    (jsOr none ws = ws) ∧
    (resolveCwd basePath none = basePath) ∧
    (truthy (jsOr pb ws) = false → cfg.cwd = some c → c ≠ "" →
      pathIsAbsolute c = false →
      createTerminal cfg pb ws action live =
        (live, [TEvent.errorShown
          ("Cannot resolve relative path without base path: " ++ c)], none) ∧
      launchList pb ws action (cfg :: rest) i live =
        ((launchList pb ws action rest (i + 1) live).1,
          TEvent.errorShown ("Cannot resolve relative path without base path: " ++ c)
            :: (launchList pb ws action rest (i + 1) live).2)) := by
  refine ⟨?_, ?_, ?_, ?_, ?_, ?_⟩
  · intro habs
    have hcne : c ≠ "" := by
      intro h
      rw [h] at habs
      exact absurd habs (by decide)
    simp [resolveCwd, truthy, hcne, habs]
  · intro b hb hc habs
    simp [resolveCwd, truthy, hc, habs]
  · intro p hp
    simp [jsOr, truthy, hp]
  · simp [jsOr, truthy]
  · simp [resolveCwd, truthy]
  · intro hbase hcwd hc habs
    have hct : truthy (some c) = true := by simp [truthy, hc]
    have herr : createTerminal cfg pb ws action live =
        (live, [TEvent.errorShown
          ("Cannot resolve relative path without base path: " ++ c)], none) := by
      simp [createTerminal, hbase, hcwd, hct, habs]
    refine ⟨herr, ?_⟩
    show (match createTerminal cfg pb ws action live with
      | (live1, evs, some n) =>
        let r := launchList pb ws action rest (i + 1) live1
        (r.1, evs ++ [TEvent.shown n (i = 0)] ++ r.2)
      | (live1, evs, none) =>
        let r := launchList pb ws action rest (i + 1) live1
        (r.1, evs ++ r.2)) = _
    rw [herr]
    simp

/-- C4, witness: the resolution rules applied at the spec's concrete
examples, and the failing relative request leaving the batch unaffected. -/
theorem resolveCwd_spec_witness :
    resolveCwd (some "/root") (some "./x") = some "/root/x" ∧
    resolveCwd (some "/root") (some "/abs") = some "/abs" ∧
    resolveCwd (some "/root") none = some "/root" ∧
    createTerminal { name := "t", cwd := some "./x" } none none "proceed" [] =
      ([], [TEvent.errorShown
        ("Cannot resolve relative path without base path: " ++ "./x")], none) := by
  have h := resolveCwd_spec (some "/root") none none "./x"
    { name := "t", cwd := some "./x" } "proceed" [] [] 0
  have habs := resolveCwd_spec (some "/root") none none "/abs"
    { name := "t" } "proceed" [] [] 0
  refine ⟨?_, ?_, ?_, ?_⟩
  · rw [h.2.1 "/root" (by decide) (by decide) (by decide)]
    decide
  · exact habs.1 (by decide)
  · exact h.2.2.2.2.1
  · exact (h.2.2.2.2.2 (by decide) rfl (by decide) (by decide)).1

/-! ### Claim C5 — cancel aborts before creation, any other answer proceeds -/

/-- C5: when the batch has a collision and the conflict-resolution answer is
`cancel`, `launchTerminals` returns before any session is created and the
live list is unchanged; for any answer other than `cancel` (the prompt
values are non-empty strings) the orchestrator runs the per-request
creation body with the computed policy. -/
theorem launchTerminals_cancel_or_proceed (config : TerminalLauncherConfig)
    (pb ws : Option String) (live : List String) (a : String) :
    ((duplicateNames config pb live).length > 0 →
      launchTerminals config pb ws (some "cancel") live = (live, [])) ∧
    (a ≠ "cancel" → a ≠ "" →
      launchTerminals config pb ws (some a) live =
        launchTerminalsBody config pb ws
          (checkForDuplicateTerminals config pb live (some a)) live) := by
  constructor
  · intro hd
    simp [launchTerminals, checkForDuplicateTerminals, hd]
  · intro hne hne'
    by_cases hd : (duplicateNames config pb live).length > 0
    · have hact : checkForDuplicateTerminals config pb live (some a) = a := by
        simp [checkForDuplicateTerminals, hd, hne']
      simp [launchTerminals, hact, hne]
    · have hact : checkForDuplicateTerminals config pb live (some a) = "proceed" := by
        simp [checkForDuplicateTerminals, hd]
      simp [launchTerminals, hact]

/-- C5, witness: a batch whose single request collides with the live name
`"A"`; answering `cancel` leaves the state unchanged, and answering
`replace` runs the body. -/
theorem launchTerminals_cancel_or_proceed_witness :
    ((duplicateNames { terminals := some [{ name := "A" }] } none ["A"]).length > 0 ∧
      launchTerminals { terminals := some [{ name := "A" }] } none (some "/w")
        (some "cancel") ["A"] = (["A"], [])) ∧
    launchTerminals { terminals := some [{ name := "A" }] } none (some "/w")
      (some "replace") ["A"] =
      launchTerminalsBody { terminals := some [{ name := "A" }] } none (some "/w")
        (checkForDuplicateTerminals { terminals := some [{ name := "A" }] } none
          ["A"] (some "replace")) ["A"] := by
  have h := launchTerminals_cancel_or_proceed
    { terminals := some [{ name := "A" }] } none (some "/w") ["A"] "replace"
  exact ⟨⟨by decide, h.1 (by decide)⟩, h.2 (by decide) (by decide)⟩

/-! ### Claim C9 — a dismissed prompt is treated as cancel -/

/-- C9: when the batch has a collision and the conflict prompt is dismissed
without a selection (`action?.value || 'cancel'` with no answer), the whole
batch is aborted: no session is created and the live list is unchanged. -/
theorem launchTerminals_dismissed_prompt (config : TerminalLauncherConfig)
    (pb ws : Option String) (live : List String)
    (hd : (duplicateNames config pb live).length > 0) :
    launchTerminals config pb ws none live = (live, []) := by
  simp [launchTerminals, checkForDuplicateTerminals, hd]

/-- C9, witness: dismissing the prompt over a colliding batch creates
nothing. -/
theorem launchTerminals_dismissed_prompt_witness :
    launchTerminals { terminals := some [{ name := "A" }] } none (some "/w")
      none ["A"] = (["A"], []) :=
  launchTerminals_dismissed_prompt { terminals := some [{ name := "A" }] }
    none (some "/w") ["A"] (by decide)

/-! ### Claim C1 — groups take priority over ungrouped terminals -/

theorem createdNames_append (a b : List TEvent) :
    createdNames (a ++ b) = createdNames a ++ createdNames b := by
  simp [createdNames]

theorem createdNames_sends (n : String) (l : List (Nat × String)) :
    createdNames (l.map (fun p => TEvent.send n (500 + p.1) p.2)) = [] := by
  induction l with
  | nil => rfl
  | cons x xs ih => simp [createdNames]

theorem createTerminal_proceed_eq (config : TerminalConfig) (w : String)
    (hw : w ≠ "") (live : List String) :
    createTerminal config none (some w) "proceed" live =
      (live ++ [config.name],
        (createTerminal config none (some w) "proceed" live).2.1,
        some config.name) ∧
    createdNames (createTerminal config none (some w) "proceed" live).2.1 =
      [config.name] := by
  have hbt : truthy (jsOr none (some w)) = true := by simp [jsOr, truthy, hw]
  have e1 : ("proceed" : String) ≠ "replace" := by decide
  have e2 : ("proceed" : String) ≠ "skip" := by decide
  have e3 : ("proceed" : String) ≠ "rename" := by decide
  have heff : effectiveName none config.name = config.name := rfl
  by_cases hex : findExistingTerminal live (effectiveName none config.name) = true
  · constructor
    · simp [createTerminal, hbt, hex, e1, e2, e3, heff]
    · simp [createTerminal, hbt, hex, e1, e2, e3, heff, createdNames,
        createdNames_sends]
  · constructor
    · simp [createTerminal, hbt, hex, heff]
    · simp [createTerminal, hbt, hex, heff, createdNames, createdNames_sends]

theorem launchList_proceed_createdNames (w : String) (hw : w ≠ "") :
    ∀ (ts : List TerminalConfig) (i : Nat) (live : List String),
      createdNames (launchList none (some w) "proceed" ts i live).2 =
        ts.map (fun t => t.name) ∧
      (launchList none (some w) "proceed" ts i live).1 =
        live ++ ts.map (fun t => t.name) := by
  intro ts
  induction ts with
  | nil =>
    intro i live
    simp [launchList, createdNames]
  | cons config rest ih =>
    intro i live
    obtain ⟨heq, hcreated⟩ := createTerminal_proceed_eq config w hw live
    have hloop : launchList none (some w) "proceed" (config :: rest) i live =
        ((launchList none (some w) "proceed" rest (i + 1) (live ++ [config.name])).1,
          (createTerminal config none (some w) "proceed" live).2.1
            ++ [TEvent.shown config.name (i = 0)]
            ++ (launchList none (some w) "proceed" rest (i + 1)
                (live ++ [config.name])).2) := by
      show (match createTerminal config none (some w) "proceed" live with
        | (live1, evs, some n) =>
          let r := launchList none (some w) "proceed" rest (i + 1) live1
          (r.1, evs ++ [TEvent.shown n (i = 0)] ++ r.2)
        | (live1, evs, none) =>
          let r := launchList none (some w) "proceed" rest (i + 1) live1
          (r.1, evs ++ r.2)) = _
      rw [heq]
    obtain ⟨ih1, ih2⟩ := ih (i + 1) (live ++ [config.name])
    constructor
    · rw [hloop]
      simp only [createdNames_append, hcreated, ih1]
      simp [createdNames]
    · rw [hloop]
      simp only [ih2]
      simp [List.append_assoc]

theorem launchGroups_proceed_createdNames (w : String) (hw : w ≠ "") :
    ∀ (gs : List TerminalGroupConfig) (live : List String),
      createdNames (launchGroups none (some w) "proceed" gs live).2 =
        (gs.map (fun g => g.terminals.map (fun t => t.name))).flatten := by
  intro gs
  induction gs with
  | nil =>
    intro live
    simp [launchGroups, createdNames]
  | cons g rest ih =>
    intro live
    simp only [launchGroups, launchTerminalGroup]
    by_cases hz : g.terminals.length = 0
    · have : g.terminals = [] := List.length_eq_zero.mp hz
      simp [hz, this, createdNames_append, ih live]
    · obtain ⟨h1, _⟩ := launchList_proceed_createdNames w hw g.terminals 0 live
      simp only [hz, if_false, createdNames_append]
      rw [h1]
      simp [ih]

theorem duplicateNames_empty_live (config : TerminalLauncherConfig)
    (pb : Option String) : duplicateNames config pb [] = [] := by
  simp [duplicateNames, findExistingTerminal]

/-- C1: when `config.groups` is non-empty the launch outcome is entirely
independent of the ungrouped `config.terminals` list (it is never
launched), and on a clean host (`live = []`, no project prefix, resolvable
workspace root) the created sessions are exactly the group terminals in
declared group order; only when `config.groups` is empty or absent does the
ungrouped list get launched, in its own order. -/
theorem launchTerminals_groups_exclusive (config : TerminalLauncherConfig)
    (pb ws : Option String) (answer : Option String) (live : List String)
    (ts : Option (List TerminalConfig)) (w : String) :
    (groupsNonEmpty config.groups = true →
      launchTerminals { config with terminals := ts } pb ws answer live =
        launchTerminals { config with terminals := none } pb ws answer live) ∧
    (w ≠ "" → groupsNonEmpty config.groups = true →
      createdNames (launchTerminals config none (some w) answer []).2 =
        ((config.groups.getD []).map
          (fun g => g.terminals.map (fun t => t.name))).flatten) ∧
    (w ≠ "" → groupsNonEmpty config.groups = false →
      createdNames (launchTerminals config none (some w) answer []).2 =
        (config.terminals.getD []).map (fun t => t.name)) := by
  have ecancel : ("proceed" : String) ≠ "cancel" := by decide
  refine ⟨?_, ?_, ?_⟩
  · intro h
    simp [launchTerminals, checkForDuplicateTerminals, duplicateNames,
      batchTerminalNames, launchTerminalsBody, h]
  · intro hw h
    have hact : checkForDuplicateTerminals config none [] answer = "proceed" := by
      simp [checkForDuplicateTerminals, duplicateNames_empty_live]
    simp only [launchTerminals, hact, ecancel, if_false,
      launchTerminalsBody, h, if_pos]
    exact launchGroups_proceed_createdNames w hw (config.groups.getD []) []
  · intro hw h
    have hact : checkForDuplicateTerminals config none [] answer = "proceed" := by
      simp [checkForDuplicateTerminals, duplicateNames_empty_live]
    simp only [launchTerminals, hact, ecancel, if_false,
      launchTerminalsBody, h, Bool.false_eq_true, if_false]
    by_cases ht : terminalsNonEmpty config.terminals = true
    · simp only [ht, if_pos]
      exact (launchList_proceed_createdNames w hw (config.terminals.getD []) 0 []).1
    · simp only [ht, Bool.false_eq_true, if_false]
      match hcase : config.terminals with
      | none => simp [createdNames]
      | some l =>
        rw [hcase] at ht
        have : l = [] := by
          by_contra hne
          exact ht (by simp [terminalsNonEmpty, List.length_pos, hne])
        simp [this, createdNames]

/-- C1, witness: a config carrying both a group and an ungrouped list; the
outcome ignores the ungrouped list, and the created names are exactly the
group's terminals. -/
theorem launchTerminals_groups_exclusive_witness :
    (launchTerminals
        { groups := some [{ terminals := [{ name := "G1" }, { name := "G2" }] }],
          terminals := some [{ name := "U" }] } none (some "/w") none [] =
      launchTerminals
        { groups := some [{ terminals := [{ name := "G1" }, { name := "G2" }] }],
          terminals := none } none (some "/w") none []) ∧
    createdNames (launchTerminals
        { groups := some [{ terminals := [{ name := "G1" }, { name := "G2" }] }],
          terminals := some [{ name := "U" }] } none (some "/w") none []).2 =
      ["G1", "G2"] := by
  have h := launchTerminals_groups_exclusive
    { groups := some [{ terminals := [{ name := "G1" }, { name := "G2" }] }],
      terminals := some [{ name := "U" }] } none (some "/w") none []
    (some [{ name := "U" }]) "/w"
  constructor
  · exact h.1 (by decide)
  · have h2 := h.2.1 (by decide) (by decide)
    rw [h2]
    decide

/-! ### Claim C7 — which session ends in the foreground -/

/-- C7, evidence: an ungrouped batch of two requests, both created.  The
code calls `terminal.show(i === 0)`, whose argument is `preserveFocus` in
the VS Code API, so the first session is revealed without taking focus and
every later session is revealed taking focus: after the batch the second
(last) session is the one revealed and focused, not the first, and the
non-first sessions are not left in the background. -/
theorem launchTerminals_foreground_evidence :
    createdNames (launchTerminals
      { terminals := some [{ name := "A", command := some "echo a" },
                           { name := "B", command := some "echo b" }] }
      none (some "/w") none []).2 = ["A", "B"] ∧
    shownCalls (launchTerminals
      { terminals := some [{ name := "A", command := some "echo a" },
                           { name := "B", command := some "echo b" }] }
      none (some "/w") none []).2 = [("A", true), ("B", false)] ∧
    revealedLast (launchTerminals
      { terminals := some [{ name := "A", command := some "echo a" },
                           { name := "B", command := some "echo b" }] }
      none (some "/w") none []).2 = some "B" ∧
    focusedLast (launchTerminals
      { terminals := some [{ name := "A", command := some "echo a" },
                           { name := "B", command := some "echo b" }] }
      none (some "/w") none []).2 = some "B" ∧
    ("B" : String) ≠ "A" := by decide
